import Mathlib

/-!
Verification of the canvas-reader text pipeline.

Shallow embedding of the repository code:
* src/unnamed/part_016 (reader-utils): reduceLines, reduceLinesWithNumbers,
  quickStringSearchWithNumbers;
* src/src/utils/scrollbar.js: clamp, setupScrollBar and the scrollbar methods;
* src/unnamed/part_012 (rendering worker): the INIT message flow.

JS strings are modeled as List Char.  JS numbers are modeled as follows: the
scrollbar geometry uses Int (all operations involved are exact on integers and
purely order-theoretic); the thumb y coordinate, which the source computes with
a division that can be 0/0, is modeled as Option Rat where none stands for a
non-finite JS number (NaN or Infinity).  Measure functions, which the source
treats as opaque width oracles, are arbitrary functions into Int.
-/

/-- JS String.prototype.split with a single-character separator:
splitting the empty list gives one empty chunk, every separator occurrence
starts a new chunk. -/
def splitOnChar (c : Char) : List Char → List (List Char)
  | [] => [[]]
  | x :: xs =>
    if x = c then [] :: splitOnChar c xs
    else
      match splitOnChar c xs with
      | [] => [[x]]
      | w :: ws => (x :: w) :: ws

/-- Whitespace test used by the model of JS String.prototype.trim. -/
def isSpaceChar (c : Char) : Bool := c.isWhitespace

/-- JS String.prototype.trim: drop whitespace from both ends. -/
def trimChars (l : List Char) : List Char :=
  ((l.dropWhile isSpaceChar).reverse.dropWhile isSpaceChar).reverse

/-- JS Array.prototype.join with separator a single space
(R.join applied to a space in the source). -/
def joinSpace : List (List Char) → List Char
  | [] => []
  | [w] => w
  | w :: ws => w ++ ' ' :: joinSpace ws

/-- One step of the R.reduce in reduceLines (part_016 lines 80-93):
measure the last buffer with the word appended; if that exceeds maxWidth,
start a fresh buffer holding just the word, otherwise append the word to the
last buffer (R.adjust at index -1).  The accumulator is never empty (it starts
as a list holding one empty buffer), so taking the last element is total. -/
def wrapStep (measureFn : List (List Char) → Int) (maxWidth : Int)
    (lines : List (List (List Char))) (word : List Char) : List (List (List Char)) :=
  if maxWidth < measureFn ((lines.getLast?.getD []) ++ [word])
  then lines ++ [[word]]
  else lines.dropLast ++ [(lines.getLast?.getD []) ++ [word]]

/-- The per-logical-line fold of reduceLines: R.reduce over the words of one
logical line, starting from a single empty buffer. -/
def wrapWords (measureFn : List (List Char) → Int) (maxWidth : Int)
    (ws : List (List Char)) : List (List (List Char)) :=
  ws.foldl (wrapStep measureFn maxWidth) [[]]

/-- The word list of one logical line: R.split on space then R.map R.trim
(part_016 line 79). -/
def strWords (l : List Char) : List (List Char) :=
  (splitOnChar ' ' l).map trimChars

/-- reduceLines (part_016 lines 76-97): split the text on newlines, split each
logical line into trimmed words, greedily pack the words into buffers not
exceeding maxWidth, and join each buffer with single spaces. -/
def reduceLines (measureFn : List (List Char) → Int) (maxWidth : Int)
    (text : List Char) : List (List Char) :=
  (((splitOnChar '\n' text).map strWords).flatMap
    (fun ws => ws.foldl (wrapStep measureFn maxWidth) [[]])).map joinSpace

/-- A display line of the reader: a wrapped text fragment with a line number. -/
structure DisplayLine where
  text : List Char
  lineNum : Nat
deriving DecidableEq, Repr

/-- reduceLinesWithNumbers (part_016 lines 113-137): the same pipeline as
reduceLines (the source duplicates it literally), then
lines.map((text, index) => (text, lineNum: index + 1)). -/
def reduceLinesWithNumbers (measureFn : List (List Char) → Int) (maxWidth : Int)
    (text : List Char) : List DisplayLine :=
  ((((splitOnChar '\n' text).map strWords).flatMap
    (fun ws => ws.foldl (wrapStep measureFn maxWidth) [[]])).map joinSpace).enum.map
    (fun p => { text := p.2, lineNum := p.1 + 1 })

/-- Search result object of part_016 (searchText, results, total). -/
structure SearchResult where
  searchText : List Char
  results : List DisplayLine
  total : Nat
deriving DecidableEq, Repr

/-- Return value of quickStringSearchWithNumbers: the original list for the
empty query (the no-filter sentinel) or a SearchResult. -/
inductive SearchOutcome where
  | unfiltered (lines : List DisplayLine)
  | found (r : SearchResult)
deriving DecidableEq, Repr

/-- Default display line used to model a JS array access that is always in
bounds at its call sites. -/
def dlDefault : DisplayLine := { text := [], lineNum := 0 }

/-- The match test of the search loop (part_016 line 234):
list[i].text.toLowerCase().indexOf(s) >= 0, where s is already lower-cased. -/
def textMatches (s : List Char) (d : DisplayLine) : Bool :=
  decide (s <:+: d.text.map Char.toLower)

/-- Model of JS Set.prototype.add on an insertion-ordered list of distinct
indices. -/
def setAdd (s : List Nat) (i : Nat) : List Nat :=
  if i ∈ s then s else s ++ [i]

/-- The index-collection of one matching line i (part_016 lines 236-241):
add i-1 when i > 0, add i itself, add i+1 when i < list.length - 1. -/
def addWindow (n : Nat) (s : List Nat) (i : Nat) : List Nat :=
  let s1 := if 0 < i then setAdd s (i - 1) else s
  let s2 := setAdd s1 i
  if i < n - 1 then setAdd s2 (i + 1) else s2

/-- The first pass of quickStringSearchWithNumbers (part_016 lines 232-243):
scan the indices in order, counting matches and collecting context windows. -/
def searchScan (list : List DisplayLine) (s : List Char) : List Nat × Nat :=
  (List.range list.length).foldl
    (fun acc i =>
      if textMatches s (list.getD i dlDefault)
      then (addWindow list.length acc.1 i, acc.2 + 1)
      else acc)
    ([], 0)

/-- quickStringSearchWithNumbers (part_016 lines 220-256).  The empty query is
falsy in JS (and an absent query defaults to the empty string), so it returns
the original list.  Otherwise the collected index set is sorted ascending
(Array.from(set).sort((a, b) => a - b), modeled by insertionSort) and the lines
at those indices are returned with the match count. -/
def quickStringSearchWithNumbers (list : List DisplayLine)
    (searchFor : List Char) : SearchOutcome :=
  if searchFor = [] then .unfiltered list
  else
    let s := searchFor.map Char.toLower
    let scan := searchScan list s
    let sortedIndices := List.insertionSort (· ≤ ·) scan.1
    .found
      { searchText := searchFor
        results := sortedIndices.map (fun j => list.getD j dlDefault)
        total := scan.2 }

/-- Math.min on two numbers (scrollbar.js uses it with exact integer pixel
quantities). -/
def jsMin (a b : Int) : Int := if a ≤ b then a else b

/-- Math.max on two numbers. -/
def jsMax (a b : Int) : Int := if b ≤ a then a else b

/-- clamp (scrollbar.js line 19): Math.max(lo, Math.min(hi, num)).  The source
names the bounds min and max; they are renamed lo and hi here to avoid
shadowing. -/
def clamp (lo hi num : Int) : Int := jsMax lo (jsMin hi num)

/-- The mutable state of one scrollbar closure (scrollbar.js lines 95-105 plus
the captured variables minScroll and the construction-time canvasWidth of line
137).  The renders field counts invocations of the updateCanvas callback.  The
y coordinate is Option Rat: none models a non-finite JS number (NaN or
Infinity), produced when draw divides by a zero minScroll. -/
structure ScrollBarState where
  x : Int
  y : Option Rat
  width : Int
  height : Int
  dragging : Bool
  textHeight : Int
  canvasWidth : Int
  canvasHeight : Int
  scrollOffset : Int
  minScroll : Int
  canvasWidth0 : Int
  renders : Nat
deriving DecidableEq, Repr

/-- updateClampScroll (scrollbar.js lines 123-126): recompute
minScroll = Math.min(-textHeight + canvasHeight - 100, 0).  The subtrahend is
the literal 100, not the configured thumb height. -/
def updateClampScroll (sb : ScrollBarState) : ScrollBarState :=
  { sb with minScroll := jsMin (-sb.textHeight + sb.canvasHeight - 100) 0 }

/-- setupScrollBar (scrollbar.js lines 84-127): initial state followed by the
initial updateClampScroll call.  Defaults in the source: width 10, height 100,
scrollOffset 0; they are passed explicitly here. -/
def setupScrollBar (width height canvasWidth canvasHeight scrollOffset : Int) :
    ScrollBarState :=
  updateClampScroll
    { x := 0
      y := some 0
      width := width
      height := height
      dragging := false
      textHeight := 0
      canvasWidth := canvasWidth
      canvasHeight := canvasHeight
      scrollOffset := scrollOffset
      minScroll := 0
      canvasWidth0 := canvasWidth
      renders := 0 }

/-- clampScroll, the captured clamp(minScroll, 0) of scrollbar.js line 125. -/
def clampScroll (sb : ScrollBarState) (num : Int) : Int :=
  clamp sb.minScroll 0 num

/-- setTextHeight (scrollbar.js lines 147-150): store the text height and
recompute the bounds.  The current scrollOffset is left untouched. -/
def setTextHeight (txtHeight : Int) (sb : ScrollBarState) : ScrollBarState :=
  updateClampScroll { sb with textHeight := txtHeight }

/-- setScrollOffset (scrollbar.js lines 192-195): store the offset as given
(no clamping) and invoke the updateCanvas callback. -/
def setScrollOffset (offset : Int) (sb : ScrollBarState) : ScrollBarState :=
  { sb with scrollOffset := offset, renders := sb.renders + 1 }

/-- applyScrollDelta (scrollbar.js lines 184-186):
setScrollOffset(clampScroll(scrollOffset - delta)). -/
def applyScrollDelta (delta : Int) (sb : ScrollBarState) : ScrollBarState :=
  setScrollOffset (clampScroll sb (sb.scrollOffset - delta)) sb

/-- JS division as used for the scroll percentage: a finite numerator divided
by zero is non-finite (0/0 is NaN, otherwise Infinity), modeled as none. -/
def jsDiv (a b : Int) : Option Rat := if b = 0 then none else some ((a : Rat) / (b : Rat))

/-- Multiplication of a finite JS number with a possibly non-finite one: any
non-finite operand yields a non-finite result for the values draw produces
(NaN stays NaN; Infinity times the here-relevant finite factors is again
non-finite). -/
def jsMulOpt (a : Int) (b : Option Rat) : Option Rat := b.map (fun q => (a : Rat) * q)

/-- draw (scrollbar.js lines 134-140): scrollPerc = scrollOffset / minScroll,
y = (canvasHeight - height) * scrollPerc, x = canvasWidth - width where
canvasWidth is the construction-time closure variable. -/
def draw (sb : ScrollBarState) : ScrollBarState :=
  { sb with
    y := jsMulOpt (sb.canvasHeight - sb.height) (jsDiv sb.scrollOffset sb.minScroll)
    x := sb.canvasWidth0 - sb.width }

/-- Comparison p >= q of a finite JS number with a possibly non-finite one:
any comparison against NaN is false, and the non-finite y values draw can
produce here are NaN whenever scrollOffset is 0 (0/0). -/
def jsGeOpt (a : Int) : Option Rat → Bool
  | some q => decide (q ≤ (a : Rat))
  | none => false

/-- Comparison p <= q against a possibly non-finite bound, as jsGeOpt. -/
def jsLeOpt (a : Int) : Option Rat → Bool
  | some q => decide ((a : Rat) ≤ q)
  | none => false

/-- Addition of a possibly non-finite number and a finite one. -/
def jsAddOpt (b : Option Rat) (a : Int) : Option Rat := b.map (fun q => q + (a : Rat))

/-- pointOnScrollbar (scrollbar.js lines 113-114). -/
def pointOnScrollbar (sb : ScrollBarState) (px py : Int) : Bool :=
  decide (sb.x ≤ px) && decide (px ≤ sb.x + sb.width) &&
    jsGeOpt py sb.y && jsLeOpt py (jsAddOpt sb.y sb.height)

/-- handleMouseDown (scrollbar.js lines 201-205). -/
def handleMouseDown (px py : Int) (sb : ScrollBarState) : ScrollBarState :=
  if pointOnScrollbar sb px py then { sb with dragging := true } else sb

/-- handleMouseUp (scrollbar.js lines 211-215). -/
def handleMouseUp (sb : ScrollBarState) : ScrollBarState :=
  if sb.dragging then { sb with dragging := false } else sb

/-- handleMouseMove (scrollbar.js lines 221-225): e.buttons is truthy exactly
when nonzero. -/
def handleMouseMove (movementY : Int) (buttons : Nat) (sb : ScrollBarState) :
    ScrollBarState :=
  if sb.dragging && decide (buttons ≠ 0) then applyScrollDelta movementY sb else sb

/-- What the worker canvas currently shows: nothing yet, a centered status
message (textCenter, part_012 lines 175-185), or rendered content lines. -/
inductive CanvasView where
  | blank
  | statusMsg (message : List Char)
  | contentLines (lines : List DisplayLine)
deriving DecidableEq, Repr

/-- Whether the canvas shows a centered status message. -/
def CanvasView.isStatus : CanvasView → Bool
  | .statusMsg _ => true
  | _ => false

/-- Outcome of the single fetch performed by the INIT handler: a network error
(the promise rejects) or a response with its ok flag and body text.  res.text()
succeeds for non-success responses as well, delivering the error page body. -/
inductive FetchOutcome where
  | networkError
  | response (ok : Bool) (body : List Char)
deriving DecidableEq, Repr

/-- Coordinator state observable for the INIT flow: the canvas display and the
wrapped line table. -/
structure CoordState where
  view : CanvasView
  linesRaw : List DisplayLine
deriving DecidableEq, Repr

/-- The centered message drawn before the fetch starts (part_012 line 239). -/
def loadingMsg (route : List Char) : List Char := ("Loading ".toList) ++ route

/-- The INIT message flow of the worker (part_012 lines 224-255), sequenced:
textCenter(Loading route) is drawn, then the fetch resolves.  On a network
error the catch handler only logs (lines 252-254), so the loading message is
the last thing drawn and no retry is issued.  On any response, ok or not (the
source never consults res.ok), the body is wrapped with
reduceLinesWithNumbers and rendered (lines 240-250, 196-205, 65-89, 99-139). -/
def coordInit (measureFn : List (List Char) → Int) (maxWidth : Int)
    (st : CoordState) (route : List Char) (outcome : FetchOutcome) : CoordState :=
  let st1 : CoordState := { st with view := .statusMsg (loadingMsg route) }
  match outcome with
  | .networkError => st1
  | .response _ body =>
      let wrapped := reduceLinesWithNumbers measureFn maxWidth body
      { view := .contentLines wrapped, linesRaw := wrapped }

/-- Loop body of the first pass of the search, named so the fold can be
reasoned about; identical to the lambda inside searchScan. -/
def searchStep (list : List DisplayLine) (s : List Char)
    (acc : List Nat × Nat) (i : Nat) : List Nat × Nat :=
  if textMatches s (list.getD i dlDefault)
  then (addWindow list.length acc.1 i, acc.2 + 1)
  else acc

/-- Specification-side description of the context window of a matching index
i: the collected indices are i-1 (when i is positive), i itself, and i+1
(when i is not the last index of a list of length n). -/
def inWindow (n i j : Nat) : Prop :=
  (0 < i ∧ j = i - 1) ∨ j = i ∨ (i < n - 1 ∧ j = i + 1)

instance inWindowDecidable (n i j : Nat) : Decidable (inWindow n i j) := by
  unfold inWindow
  infer_instance

/-- Specification-side list of all matching indices, in ascending order. -/
def matchIndices (list : List DisplayLine) (s : List Char) : List Nat :=
  (List.range list.length).filter (fun i => textMatches s (list.getD i dlDefault))

/-- Specification-side list of all context indices: the ascending, duplicate
free enumeration of the union of the context windows of all matches. -/
def ctxIndices (list : List DisplayLine) (s : List Char) : List Nat :=
  (List.range list.length).filter
    (fun j => decide (∃ i ∈ matchIndices list s, inWindow list.length i j))

/-- Concrete measure used in counterexamples and witnesses: the length of the
space-joined text, similar to the measure the unit tests of the repository
use. -/
def lenMeasure (bufs : List (List Char)) : Int := ((joinSpace bufs).length : Int)

/-- Concrete three-line table used by the search witnesses. -/
def searchDemo : List DisplayLine :=
  [{ text := ['a'], lineNum := 1 }, { text := ['B'], lineNum := 2 },
    { text := ['c'], lineNum := 3 }]

/-- Scrollbar built with a 50 pixel thumb (width 10, canvas 800 by 600,
offset 0): its configured height differs from the literal 100 used by
updateClampScroll. -/
def sbThin : ScrollBarState := setupScrollBar 10 50 800 600 0

/-- Scrollbar built with the source defaults (width 10, thumb height 100,
canvas 800 by 600, offset 0). -/
def sbBase : ScrollBarState := setupScrollBar 10 100 800 600 0

/-- Structural companion of the wrap fold: the current buffer is threaded
explicitly and finished buffers are emitted in order. -/
def wrapAux (measureFn : List (List Char) → Int) (maxWidth : Int)
    (cur : List (List Char)) : List (List Char) → List (List (List Char))
  | [] => [cur]
  | w :: ws =>
    if maxWidth < measureFn (cur ++ [w]) then cur :: wrapAux measureFn maxWidth [w] ws
    else wrapAux measureFn maxWidth (cur ++ [w]) ws

theorem wrapStep_concat (m : List (List Char) → Int) (mw : Int)
    (bs : List (List (List Char))) (b : List (List Char)) (w : List Char) :
    wrapStep m mw (bs ++ [b]) w =
      if mw < m (b ++ [w]) then (bs ++ [b]) ++ [[w]] else bs ++ [b ++ [w]] := by
  simp [wrapStep, List.getLast?_concat, List.dropLast_concat]

theorem foldl_wrapStep_eq_wrapAux (m : List (List Char) → Int) (mw : Int) :
    ∀ (ws : List (List Char)) (bs : List (List (List Char))) (cur : List (List Char)),
      ws.foldl (wrapStep m mw) (bs ++ [cur]) = bs ++ wrapAux m mw cur ws := by
  intro ws
  induction ws with
  | nil => intro bs cur; simp [wrapAux]
  | cons w ws ih =>
      intro bs cur
      simp only [List.foldl_cons, wrapStep_concat, wrapAux]
      by_cases h : mw < m (cur ++ [w])
      · rw [if_pos h, if_pos h]
        have h2 := ih (bs ++ [cur]) [w]
        simpa using h2
      · rw [if_neg h, if_neg h]
        exact ih bs (cur ++ [w])

theorem wrapWords_eq_wrapAux (m : List (List Char) → Int) (mw : Int)
    (ws : List (List Char)) : wrapWords m mw ws = wrapAux m mw [] ws := by
  have h := foldl_wrapStep_eq_wrapAux m mw ws [] []
  simpa [wrapWords] using h

theorem wrapAux_width (m : List (List Char) → Int) (mw : Int) :
    ∀ (ws : List (List Char)) (cur : List (List Char)),
      (2 ≤ cur.length → m cur ≤ mw) →
      ∀ buf ∈ wrapAux m mw cur ws, 2 ≤ buf.length → m buf ≤ mw := by
  intro ws
  induction ws with
  | nil =>
      intro cur hcur buf hbuf hlen
      simp [wrapAux] at hbuf
      exact hbuf ▸ hcur (hbuf ▸ hlen)
  | cons w ws ih =>
      intro cur hcur buf hbuf hlen
      simp only [wrapAux] at hbuf
      by_cases h : mw < m (cur ++ [w])
      · rw [if_pos h] at hbuf
        rcases List.mem_cons.mp hbuf with h1 | h1
        · exact h1 ▸ hcur (h1 ▸ hlen)
        · refine ih [w] (fun h2 => absurd h2 (by simp)) buf h1 hlen
      · rw [if_neg h] at hbuf
        exact ih (cur ++ [w]) (fun _ => le_of_not_lt h) buf hbuf hlen

theorem wrapAux_first (m : List (List Char) → Int) (mw : Int) :
    ∀ (ws : List (List Char)) (cur : List (List Char)),
      ∃ t rest, wrapAux m mw cur ws = (cur ++ t) :: rest := by
  intro ws
  induction ws with
  | nil => intro cur; exact ⟨[], [], by simp [wrapAux]⟩
  | cons w ws ih =>
      intro cur
      simp only [wrapAux]
      by_cases h : mw < m (cur ++ [w])
      · rw [if_pos h]
        exact ⟨[], wrapAux m mw [w] ws, by simp⟩
      · rw [if_neg h]
        obtain ⟨t, rest, ht⟩ := ih (cur ++ [w])
        exact ⟨[w] ++ t, rest, by simpa using ht⟩

theorem wrapAux_ne_nil (m : List (List Char) → Int) (mw : Int) :
    ∀ (ws : List (List Char)) (cur : List (List Char)), cur ≠ [] →
      ∀ buf ∈ wrapAux m mw cur ws, buf ≠ [] := by
  intro ws
  induction ws with
  | nil =>
      intro cur hcur buf hbuf
      simp [wrapAux] at hbuf
      exact hbuf ▸ hcur
  | cons w ws ih =>
      intro cur hcur buf hbuf
      simp only [wrapAux] at hbuf
      by_cases h : mw < m (cur ++ [w])
      · rw [if_pos h] at hbuf
        rcases List.mem_cons.mp hbuf with h1 | h1
        · exact h1 ▸ hcur
        · exact ih [w] (by simp) buf h1
      · rw [if_neg h] at hbuf
        exact ih (cur ++ [w]) (by simp) buf hbuf

theorem wrapAux_words (m : List (List Char) → Int) (mw : Int)
    (Q : List Char → Prop) :
    ∀ (ws : List (List Char)) (cur : List (List Char)),
      (∀ x ∈ cur, Q x) → (∀ x ∈ ws, Q x) →
      ∀ buf ∈ wrapAux m mw cur ws, ∀ x ∈ buf, Q x := by
  intro ws
  induction ws with
  | nil =>
      intro cur hcur _ buf hbuf
      simp [wrapAux] at hbuf
      exact hbuf ▸ hcur
  | cons w ws ih =>
      intro cur hcur hws buf hbuf
      have hw : Q w := hws w (by simp)
      have hws2 : ∀ x ∈ ws, Q x := fun x hx => hws x (by simp [hx])
      simp only [wrapAux] at hbuf
      by_cases h : mw < m (cur ++ [w])
      · rw [if_pos h] at hbuf
        rcases List.mem_cons.mp hbuf with h1 | h1
        · exact h1 ▸ hcur
        · exact ih [w] (by simpa using hw) hws2 buf h1
      · rw [if_neg h] at hbuf
        refine ih (cur ++ [w]) ?cur hws2 buf hbuf
        intro x hx
        rcases List.mem_append.mp hx with h1 | h1
        · exact hcur x h1
        · simpa using (List.mem_singleton.mp h1) ▸ hw

theorem splitOnChar_ne_nil (c : Char) (l : List Char) : splitOnChar c l ≠ [] := by
  cases l with
  | nil => simp [splitOnChar]
  | cons x xs =>
      simp only [splitOnChar]
      by_cases h : x = c
      · simp [h]
      · rw [if_neg h]
        cases h2 : splitOnChar c xs with
        | nil => simp
        | cons w ws => simp

theorem not_mem_of_mem_splitOnChar (c : Char) :
    ∀ (l : List Char) (w : List Char), w ∈ splitOnChar c l → c ∉ w := by
  intro l
  induction l with
  | nil =>
      intro w hw
      simp [splitOnChar] at hw
      simp [hw]
  | cons x xs ih =>
      intro w hw
      simp only [splitOnChar] at hw
      by_cases h : x = c
      · rw [if_pos h] at hw
        rcases List.mem_cons.mp hw with h1 | h1
        · simp [h1]
        · exact ih w h1
      · rw [if_neg h] at hw
        cases h2 : splitOnChar c xs with
        | nil => exact absurd h2 (splitOnChar_ne_nil c xs)
        | cons v vs =>
            rw [h2] at hw
            rcases List.mem_cons.mp hw with h1 | h1
            · subst h1
              intro hc
              rcases List.mem_cons.mp hc with h3 | h3
              · exact h (h3.symm)
              · exact ih v (h2 ▸ List.mem_cons_self v vs) h3
            · exact ih w (h2 ▸ List.mem_cons_of_mem v h1)

theorem mem_of_mem_trimChars (x : Char) (l : List Char) :
    x ∈ trimChars l → x ∈ l := by
  intro hx
  unfold trimChars at hx
  rw [List.mem_reverse] at hx
  have h1 := (List.dropWhile_sublist isSpaceChar).mem hx
  rw [List.mem_reverse] at h1
  exact (List.dropWhile_sublist isSpaceChar).mem h1

theorem strWords_no_space (l : List Char) : ∀ w ∈ strWords l, ' ' ∉ w := by
  intro w hw hsp
  unfold strWords at hw
  rcases List.mem_map.mp hw with ⟨v, hv, hveq⟩
  exact not_mem_of_mem_splitOnChar ' ' l v hv (mem_of_mem_trimChars ' ' v (hveq ▸ hsp))

theorem splitOnChar_append_left (c : Char) :
    ∀ (w rest : List Char), c ∉ w →
      ∀ hd tl, splitOnChar c rest = hd :: tl →
        splitOnChar c (w ++ rest) = (w ++ hd) :: tl := by
  intro w
  induction w with
  | nil => intro rest _ hd tl h2; simpa using h2
  | cons x w ih =>
      intro rest hc hd tl h2
      have hx : ¬ x = c := fun h => hc (h ▸ List.mem_cons_self x w)
      have hcw : c ∉ w := fun h => hc (List.mem_cons_of_mem x h)
      have h3 := ih rest hcw hd tl h2
      simp only [List.cons_append, splitOnChar, if_neg hx, List.append_eq, h3]

theorem splitOnChar_single (c : Char) (w : List Char) (h : c ∉ w) :
    splitOnChar c w = [w] := by
  have h2 := splitOnChar_append_left c w [] h [] [] (by simp [splitOnChar])
  simpa using h2

theorem splitOnChar_joinSpace :
    ∀ (bufs : List (List Char)), bufs ≠ [] → (∀ w ∈ bufs, ' ' ∉ w) →
      splitOnChar ' ' (joinSpace bufs) = bufs := by
  intro bufs
  induction bufs with
  | nil => intro h; exact absurd rfl h
  | cons w bs ih =>
      intro _ hsp
      cases bs with
      | nil =>
          simp only [joinSpace]
          exact splitOnChar_single ' ' w (hsp w (by simp))
      | cons v bs2 =>
          have hjoin : joinSpace (w :: v :: bs2) = w ++ ' ' :: joinSpace (v :: bs2) := rfl
          have htail : splitOnChar ' ' (' ' :: joinSpace (v :: bs2)) =
              [] :: splitOnChar ' ' (joinSpace (v :: bs2)) := by
            simp [splitOnChar]
          have hrec : splitOnChar ' ' (joinSpace (v :: bs2)) = v :: bs2 :=
            ih (by simp) (fun x hx => hsp x (List.mem_cons_of_mem w hx))
          rw [hjoin, splitOnChar_append_left ' ' w (' ' :: joinSpace (v :: bs2))
            (hsp w (by simp)) [] (splitOnChar ' ' (joinSpace (v :: bs2)))
            (by rw [htail])]
          simp [hrec]

theorem reduceLines_mem (m : List (List Char) → Int) (mw : Int) (text : List Char)
    (t : List Char) (ht : t ∈ reduceLines m mw text) :
    ∃ l buf, l ∈ splitOnChar '\n' text ∧ buf ∈ wrapAux m mw [] (strWords l) ∧
      t = joinSpace buf := by
  unfold reduceLines at ht
  rcases List.mem_map.mp ht with ⟨buf, hbuf, hteq⟩
  rcases List.mem_flatMap.mp hbuf with ⟨ws, hws, hbuf2⟩
  rcases List.mem_map.mp hws with ⟨l, hl, hwseq⟩
  refine ⟨l, buf, hl, ?_, hteq.symm⟩
  have h2 : ws.foldl (wrapStep m mw) [[]] = wrapAux m mw [] ws := by
    have h3 := foldl_wrapStep_eq_wrapAux m mw ws [] []
    simpa using h3
  rw [h2] at hbuf2
  exact hwseq ▸ hbuf2

/-- Claim C3: for every measure function, every maxWidth greater than 0 and
every input text, each display line produced by reduceLines measures at most
maxWidth, except possibly a line consisting of one single word whose own
measured width exceeds maxWidth; words are never split across lines. -/
theorem reduceLines_width_invariant (m : List (List Char) → Int) (mw : Int)
    (hmw : 0 < mw) (text : List Char) :
    ∀ t ∈ reduceLines m mw text,
      m (splitOnChar ' ' t) ≤ mw ∨ ∃ w, splitOnChar ' ' t = [w] ∧ mw < m [w] := by
  intro t ht
  obtain ⟨l, buf, _, hbuf, hteq⟩ := reduceLines_mem m mw text t ht
  have hwords : ∀ x ∈ buf, ' ' ∉ x :=
    wrapAux_words m mw (fun x => ' ' ∉ x) (strWords l) [] (by simp)
      (strWords_no_space l) buf hbuf
  subst hteq
  cases buf with
  | nil =>
      have hsplit : splitOnChar ' ' (joinSpace ([] : List (List Char))) = [[]] := rfl
      rw [hsplit]
      by_cases hc : m [[]] ≤ mw
      · exact Or.inl hc
      · exact Or.inr ⟨[], rfl, lt_of_not_le hc⟩
  | cons w bs =>
      cases bs with
      | nil =>
          have hsp : ' ' ∉ w := hwords w (by simp)
          have hsplit : splitOnChar ' ' (joinSpace [w]) = [w] :=
            splitOnChar_single ' ' w hsp
          rw [hsplit]
          by_cases hc : m [w] ≤ mw
          · exact Or.inl hc
          · exact Or.inr ⟨w, rfl, lt_of_not_le hc⟩
      | cons v bs2 =>
          have hsplit := splitOnChar_joinSpace (w :: v :: bs2) (by simp) hwords
          rw [hsplit]
          exact Or.inl (wrapAux_width m mw (strWords l) []
            (fun h2 => absurd h2 (by simp)) _ hbuf (by simp))

/-- Witness for claim C3 at a concrete measure, width and text. -/
theorem reduceLines_width_invariant_witness :
    (0 : Int) < 3 ∧
      ∀ t ∈ reduceLines lenMeasure 3 ['a', 'b', ' ', 'c'],
        lenMeasure (splitOnChar ' ' t) ≤ 3 ∨
          ∃ w, splitOnChar ' ' t = [w] ∧ 3 < lenMeasure [w] :=
  ⟨by decide, reduceLines_width_invariant lenMeasure 3 (by decide) ['a', 'b', ' ', 'c']⟩

/-- Claim C10: whenever the first word of a logical line measures strictly
wider than maxWidth, the fold emits the initial empty buffer as a display line
of its own, directly before the line carrying that word; when the first word
fits, no empty buffer is emitted at all. -/
theorem wrapWords_overlong_first_word (m : List (List Char) → Int) (mw : Int)
    (w : List Char) (ws : List (List Char)) :
    (mw < m [w] → ∃ t rest, wrapWords m mw (w :: ws) = [] :: (w :: t) :: rest ∧
      ∀ b ∈ (w :: t) :: rest, b ≠ []) ∧
    (m [w] ≤ mw → ∃ t rest, wrapWords m mw (w :: ws) = (w :: t) :: rest ∧
      ∀ b ∈ (w :: t) :: rest, b ≠ []) := by
  rw [wrapWords_eq_wrapAux]
  have hstep : wrapAux m mw [] (w :: ws) =
      if mw < m [w] then [] :: wrapAux m mw [w] ws else wrapAux m mw [w] ws := by
    simp [wrapAux]
  obtain ⟨t, rest, ht⟩ := wrapAux_first m mw ws [w]
  have hne := wrapAux_ne_nil m mw ws [w] (by simp)
  have hcons : wrapAux m mw [w] ws = (w :: t) :: rest := by simpa using ht
  constructor
  · intro h
    rw [hstep, if_pos h, hcons]
    exact ⟨t, rest, rfl, fun b hb => hne b (hcons ▸ hb)⟩
  · intro h
    rw [hstep, if_neg (not_lt.mpr h), hcons]
    exact ⟨t, rest, rfl, fun b hb => hne b (hcons ▸ hb)⟩

/-- Witness for claim C10 at a concrete measure and word list. -/
theorem wrapWords_overlong_first_word_witness :
    (0 : Int) < lenMeasure [['a']] ∧
      (∃ t rest, wrapWords lenMeasure 0 [['a']] = [] :: (['a'] :: t) :: rest ∧
        ∀ b ∈ (['a'] :: t) :: rest, b ≠ []) :=
  ⟨by decide, (wrapWords_overlong_first_word lenMeasure 0 ['a'] []).1 (by decide)⟩

theorem map_enumFrom_lineNum :
    ∀ (l : List (List Char)) (i : Nat),
      ((l.enumFrom i).map
        (fun p => ({ text := p.2, lineNum := p.1 + 1 } : DisplayLine))).map
          DisplayLine.lineNum = List.range' (i + 1) l.length := by
  intro l
  induction l with
  | nil => intro i; rfl
  | cons a t ih =>
      intro i
      simp only [List.enumFrom, List.map_cons, List.length_cons, List.range'_succ]
      exact congrArg (List.cons (i + 1)) (ih (i + 1))

theorem map_enumFrom_text :
    ∀ (l : List (List Char)) (i : Nat),
      ((l.enumFrom i).map
        (fun p => ({ text := p.2, lineNum := p.1 + 1 } : DisplayLine))).map
          DisplayLine.text = l := by
  intro l
  induction l with
  | nil => intro i; rfl
  | cons a t ih =>
      intro i
      simp only [List.enumFrom, List.map_cons]
      exact congrArg (List.cons a) (ih (i + 1))

/-- Claim C1 (amended): reduceLinesWithNumbers numbers display lines by their
position in the wrapped output, not by source logical line: its texts are
exactly reduceLines and its lineNum column is 1, 2, ..., output length. -/
theorem reduceLinesWithNumbers_positional (m : List (List Char) → Int)
    (mw : Int) (text : List Char) :
    (reduceLinesWithNumbers m mw text).map DisplayLine.text =
        reduceLines m mw text ∧
      (reduceLinesWithNumbers m mw text).map DisplayLine.lineNum =
        List.range' 1 ((reduceLines m mw text).length) := by
  unfold reduceLinesWithNumbers reduceLines
  exact ⟨map_enumFrom_text _ 0, map_enumFrom_lineNum _ 0⟩

/-- Counterexample to claim C1: the single logical line of the text a-space-b
wraps at width 1 into two display lines whose lineNums are 1 and 2, so display
lines coming from one logical line do not share the logical line number. -/
theorem reduceLinesWithNumbers_not_logical_numbering :
    (splitOnChar '\n' ['a', ' ', 'b']).length = 1 ∧
    (reduceLinesWithNumbers lenMeasure 1 ['a', ' ', 'b']).map DisplayLine.lineNum
      = [1, 2] ∧
    (reduceLinesWithNumbers lenMeasure 1 ['a', ' ', 'b']).map DisplayLine.lineNum
      ≠ [1, 1] := by
  decide

theorem searchScan_eq_foldl (list : List DisplayLine) (s : List Char) :
    searchScan list s = (List.range list.length).foldl (searchStep list s) ([], 0) :=
  rfl

theorem mem_setAdd (s : List Nat) (i j : Nat) : j ∈ setAdd s i ↔ j ∈ s ∨ j = i := by
  unfold setAdd
  by_cases h : i ∈ s
  · rw [if_pos h]
    constructor
    · exact Or.inl
    · rintro (hj | rfl)
      · exact hj
      · exact h
  · rw [if_neg h]
    simp

theorem nodup_setAdd (s : List Nat) (i : Nat) (h : s.Nodup) : (setAdd s i).Nodup := by
  unfold setAdd
  by_cases h2 : i ∈ s
  · rw [if_pos h2]
    exact h
  · rw [if_neg h2]
    refine List.Nodup.append h (List.nodup_singleton i) ?_
    intro a ha hai
    rw [List.mem_singleton] at hai
    exact h2 (hai ▸ ha)

theorem mem_addWindow (n : Nat) (s : List Nat) (i j : Nat) :
    j ∈ addWindow n s i ↔ j ∈ s ∨ inWindow n i j := by
  unfold addWindow inWindow
  by_cases h1 : 0 < i <;> by_cases h2 : i < n - 1 <;>
    simp [h1, h2, mem_setAdd] <;> tauto

theorem nodup_addWindow (n : Nat) (s : List Nat) (i : Nat) (h : s.Nodup) :
    (addWindow n s i).Nodup := by
  unfold addWindow
  by_cases h1 : 0 < i <;> by_cases h2 : i < n - 1 <;> simp only [h1, h2, if_true,
      if_false, ite_true, ite_false] <;>
    first
      | exact nodup_setAdd _ _ (nodup_setAdd _ _ (nodup_setAdd _ _ h))
      | exact nodup_setAdd _ _ (nodup_setAdd _ _ h)
      | exact nodup_setAdd _ _ h

theorem mem_addWindow_lt (n : Nat) (s : List Nat) (i : Nat) (hi : i < n)
    (hs : ∀ j ∈ s, j < n) : ∀ j ∈ addWindow n s i, j < n := by
  intro j hj
  rcases (mem_addWindow n s i j).mp hj with h | h
  · exact hs j h
  · unfold inWindow at h
    rcases h with ⟨_, rfl⟩ | rfl | ⟨h2, rfl⟩ <;> omega

theorem searchScan_fold_spec (list : List DisplayLine) (s : List Char) :
    ∀ k : Nat,
      ((List.range k).foldl (searchStep list s) ([], 0)).2 =
        ((List.range k).filter
          (fun i => textMatches s (list.getD i dlDefault))).length ∧
      ((List.range k).foldl (searchStep list s) ([], 0)).1.Nodup ∧
      ∀ j, (j ∈ ((List.range k).foldl (searchStep list s) ([], 0)).1 ↔
        ∃ i, i ∈ List.range k ∧ textMatches s (list.getD i dlDefault) = true ∧
          inWindow list.length i j) := by
  intro k
  induction k with
  | zero => simp
  | succ k ih =>
      obtain ⟨ih1, ih2, ih3⟩ := ih
      rw [List.range_succ, List.foldl_append, List.filter_append]
      have hfold : List.foldl (searchStep list s)
          (List.foldl (searchStep list s) ([], 0) (List.range k)) [k] =
          searchStep list s (List.foldl (searchStep list s) ([], 0) (List.range k)) k := by
        rw [List.foldl_cons, List.foldl_nil]
      have hf1 : List.filter (fun i => textMatches s (list.getD i dlDefault)) [k] =
          if textMatches s (list.getD k dlDefault) = true then [k] else [] := by
        simp only [List.filter_cons, List.filter_nil]
      rw [hfold, hf1]
      by_cases hc : textMatches s (list.getD k dlDefault) = true
      · have hsk : searchStep list s
            (List.foldl (searchStep list s) ([], 0) (List.range k)) k =
            (addWindow list.length
              (List.foldl (searchStep list s) ([], 0) (List.range k)).1 k,
             (List.foldl (searchStep list s) ([], 0) (List.range k)).2 + 1) := by
          unfold searchStep
          rw [hc]
          simp
        rw [hsk, if_pos hc]
        refine ⟨?_, ?_, ?_⟩
        · dsimp only
          rw [ih1, List.length_append]
          rfl
        · dsimp only
          exact nodup_addWindow _ _ _ ih2
        · intro j
          dsimp only
          rw [mem_addWindow, ih3 j]
          constructor
          · rintro (⟨i, hik, hit, hiw⟩ | hw)
            · exact ⟨i, by simp [List.mem_append, hik], hit, hiw⟩
            · exact ⟨k, by simp, hc, hw⟩
          · rintro ⟨i, hik, hit, hiw⟩
            rcases List.mem_append.mp hik with h | h
            · exact Or.inl ⟨i, h, hit, hiw⟩
            · rw [List.mem_singleton] at h
              subst h
              exact Or.inr hiw
      · have hcf : textMatches s (list.getD k dlDefault) = false := by
          revert hc
          cases textMatches s (list.getD k dlDefault) <;> simp
        have hsk : searchStep list s
            (List.foldl (searchStep list s) ([], 0) (List.range k)) k =
            List.foldl (searchStep list s) ([], 0) (List.range k) := by
          unfold searchStep
          rw [hcf]
          simp
        rw [hsk, if_neg hc, List.append_nil]
        refine ⟨ih1, ih2, ?_⟩
        intro j
        rw [ih3 j]
        constructor
        · rintro ⟨i, hik, hit, hiw⟩
          exact ⟨i, by simp [List.mem_append, hik], hit, hiw⟩
        · rintro ⟨i, hik, hit, hiw⟩
          rcases List.mem_append.mp hik with h | h
          · exact ⟨i, h, hit, hiw⟩
          · rw [List.mem_singleton] at h
            subst h
            exact absurd hit hc

theorem searchScan_spec (list : List DisplayLine) (s : List Char) :
    (searchScan list s).2 = (matchIndices list s).length ∧
    (searchScan list s).1.Nodup ∧
    ∀ j, (j ∈ (searchScan list s).1 ↔
      ∃ i ∈ matchIndices list s, inWindow list.length i j) := by
  have h := searchScan_fold_spec list s list.length
  rw [searchScan_eq_foldl]
  refine ⟨h.1, h.2.1, ?_⟩
  intro j
  rw [h.2.2 j]
  constructor
  · rintro ⟨i, hir, hit, hiw⟩
    exact ⟨i, List.mem_filter.mpr ⟨hir, hit⟩, hiw⟩
  · rintro ⟨i, him, hiw⟩
    have h2 := List.mem_filter.mp him
    exact ⟨i, h2.1, h2.2, hiw⟩

theorem searchScan_bounded (list : List DisplayLine) (s : List Char) :
    ∀ j ∈ (searchScan list s).1, j < list.length := by
  intro j hj
  obtain ⟨i, him, hiw⟩ := ((searchScan_spec list s).2.2 j).mp hj
  have hir := (List.mem_filter.mp him).1
  rw [List.mem_range] at hir
  unfold inWindow at hiw
  rcases hiw with ⟨_, rfl⟩ | rfl | ⟨h2, rfl⟩ <;> omega

theorem mem_ctxIndices (list : List DisplayLine) (s : List Char) (j : Nat) :
    j ∈ ctxIndices list s ↔
      j < list.length ∧ ∃ i ∈ matchIndices list s, inWindow list.length i j := by
  unfold ctxIndices
  rw [List.mem_filter, List.mem_range]
  simp

theorem scan_mem_iff_ctx (list : List DisplayLine) (s : List Char) :
    ∀ j, (j ∈ (searchScan list s).1 ↔ j ∈ ctxIndices list s) := by
  intro j
  rw [mem_ctxIndices]
  constructor
  · intro hj
    exact ⟨searchScan_bounded list s j hj, ((searchScan_spec list s).2.2 j).mp hj⟩
  · rintro ⟨_, hw⟩
    exact ((searchScan_spec list s).2.2 j).mpr hw

theorem nodup_ctxIndices (list : List DisplayLine) (s : List Char) :
    (ctxIndices list s).Nodup :=
  (List.nodup_range _).filter _

theorem sorted_ctxIndices (list : List DisplayLine) (s : List Char) :
    List.Sorted (· ≤ ·) (ctxIndices list s) :=
  List.Pairwise.filter _ ((List.pairwise_lt_range _).imp fun h => le_of_lt h)

theorem sort_scan_eq_ctx (list : List DisplayLine) (s : List Char) :
    List.insertionSort (· ≤ ·) (searchScan list s).1 = ctxIndices list s := by
  have h2 : (searchScan list s).1.Perm (ctxIndices list s) := by
    apply List.Subperm.antisymm
    · exact List.subperm_of_subset (searchScan_spec list s).2.1
        (fun j hj => (scan_mem_iff_ctx list s j).mp hj)
    · exact List.subperm_of_subset (nodup_ctxIndices list s)
        (fun j hj => (scan_mem_iff_ctx list s j).mpr hj)
  exact List.eq_of_perm_of_sorted ((List.perm_insertionSort _ _).trans h2)
    (List.sorted_insertionSort _ _) (sorted_ctxIndices list s)

theorem quickSearch_found_eq (list : List DisplayLine) (q : List Char)
    (hq : q ≠ []) :
    quickStringSearchWithNumbers list q = .found
      { searchText := q
        results := (ctxIndices list (q.map Char.toLower)).map
          (fun j => list.getD j dlDefault)
        total := (matchIndices list (q.map Char.toLower)).length } := by
  unfold quickStringSearchWithNumbers
  rw [if_neg hq]
  have h1 := sort_scan_eq_ctx list (q.map Char.toLower)
  have h2 := (searchScan_spec list (q.map Char.toLower)).1
  simp only [h1, h2]

theorem matchIndices_subset_ctx (list : List DisplayLine) (s : List Char) :
    matchIndices list s ⊆ ctxIndices list s := by
  intro i him
  have h := List.mem_filter.mp him
  rw [mem_ctxIndices]
  exact ⟨List.mem_range.mp h.1, i, him, Or.inr (Or.inl rfl)⟩

theorem ctx_length_lower (list : List DisplayLine) (s : List Char) :
    (matchIndices list s).length ≤ (ctxIndices list s).length :=
  (List.subperm_of_subset ((List.nodup_range _).filter _)
    (matchIndices_subset_ctx list s)).length_le

theorem sum_map_const3 (l : List Nat) : (l.map (fun _ => (3 : Nat))).sum = 3 * l.length := by
  induction l with
  | nil => simp
  | cons a t ih =>
      simp only [List.map_cons, List.sum_cons, ih, List.length_cons]
      omega

theorem ctx_length_upper (list : List DisplayLine) (s : List Char) :
    (ctxIndices list s).length ≤ 3 * (matchIndices list s).length := by
  have hsub : ctxIndices list s ⊆
      (matchIndices list s).flatMap (fun i => [i - 1, i, i + 1]) := by
    intro j hj
    obtain ⟨_, i, him, hiw⟩ := (mem_ctxIndices list s j).mp hj
    rw [List.mem_flatMap]
    refine ⟨i, him, ?_⟩
    unfold inWindow at hiw
    rcases hiw with ⟨_, rfl⟩ | rfl | ⟨_, rfl⟩ <;> simp
  have hlen := (List.subperm_of_subset (nodup_ctxIndices list s) hsub).length_le
  rw [List.length_flatMap] at hlen
  have h4 : (List.length ∘ fun i : Nat => [i - 1, i, i + 1]) = fun _ => (3 : Nat) := by
    funext i
    rfl
  rw [h4, sum_map_const3] at hlen
  exact hlen

theorem ctx_nil_of_match_nil (list : List DisplayLine) (s : List Char)
    (h : matchIndices list s = []) : ctxIndices list s = [] := by
  unfold ctxIndices
  apply List.filter_eq_nil_iff.mpr
  intro j _
  intro hdec
  rw [decide_eq_true_iff] at hdec
  obtain ⟨i, him, _⟩ := hdec
  rw [h] at him
  exact absurd him (List.not_mem_nil i)

/-- Claim C2: for a nonempty query the search returns a SearchResult whose
total counts exactly the indices whose lower-cased text contains the
lower-cased query, and whose results are the lines at the ascending duplicate
free context index set (i-1 when i positive, i, i+1 when i not last, for every
matching i); the context index list is sorted, its length lies between total
and three times total, and an unmatched query yields total 0 and no results. -/
theorem quickStringSearchWithNumbers_spec (list : List DisplayLine)
    (q : List Char) (hq : q ≠ []) :
    quickStringSearchWithNumbers list q = .found
      { searchText := q
        results := (ctxIndices list (q.map Char.toLower)).map
          (fun j => list.getD j dlDefault)
        total := (matchIndices list (q.map Char.toLower)).length } ∧
    List.Sorted (· ≤ ·) (ctxIndices list (q.map Char.toLower)) ∧
    (matchIndices list (q.map Char.toLower)).length ≤
      (ctxIndices list (q.map Char.toLower)).length ∧
    (ctxIndices list (q.map Char.toLower)).length ≤
      3 * (matchIndices list (q.map Char.toLower)).length ∧
    (matchIndices list (q.map Char.toLower) = [] →
      quickStringSearchWithNumbers list q =
        .found { searchText := q, results := [], total := 0 }) := by
  refine ⟨quickSearch_found_eq list q hq, sorted_ctxIndices _ _,
    ctx_length_lower _ _, ctx_length_upper _ _, ?_⟩
  intro h
  rw [quickSearch_found_eq list q hq, ctx_nil_of_match_nil _ _ h, h]
  rfl

/-- Witness for claim C2: searching the three-line demo table for the letter b
matches only the middle line (case-insensitively) and returns all three lines
as its context window with total 1. -/
theorem quickStringSearchWithNumbers_spec_witness :
    quickStringSearchWithNumbers searchDemo ['b'] = .found
      { searchText := ['b'], results := searchDemo, total := 1 } := by
  have h := (quickStringSearchWithNumbers_spec searchDemo ['b'] (by decide)).1
  rw [h]
  decide

/-- Claim C9: the empty query (and the absent query, which defaults to the
empty string in the source) returns the original line list itself, not a
SearchResult wrapper, and that sentinel is distinguishable from a zero-match
SearchResult, which carries the nonempty query, empty results and total 0. -/
theorem quickStringSearchWithNumbers_empty_query :
    (∀ list, quickStringSearchWithNumbers list [] = .unfiltered list) ∧
    (∀ list (r : SearchResult),
      SearchOutcome.unfiltered list ≠ SearchOutcome.found r) ∧
    (∀ list (q : List Char), q ≠ [] →
      matchIndices list (q.map Char.toLower) = [] →
      quickStringSearchWithNumbers list q =
        SearchOutcome.found { searchText := q, results := [], total := 0 }) := by
  refine ⟨?_, ?_, ?_⟩
  · intro list
    unfold quickStringSearchWithNumbers
    rw [if_pos rfl]
  · intro list r h
    exact SearchOutcome.noConfusion h
  · intro list q hq h
    rw [quickSearch_found_eq list q hq, ctx_nil_of_match_nil _ _ h, h]
    rfl

/-- Witness for claim C9 on the demo table: empty query returns the table
itself, an unmatched query returns the zero-match SearchResult. -/
theorem quickStringSearchWithNumbers_empty_query_witness :
    quickStringSearchWithNumbers searchDemo [] = .unfiltered searchDemo ∧
    quickStringSearchWithNumbers searchDemo ['z'] =
      SearchOutcome.found { searchText := ['z'], results := [], total := 0 } :=
  ⟨quickStringSearchWithNumbers_empty_query.1 searchDemo,
    quickStringSearchWithNumbers_empty_query.2.2 searchDemo ['z'] (by decide)
      (by decide)⟩

/-- Counterexample to claim C4: with a configured thumb height of 50 the
bounds after setTextHeight 1000 use the literal 100 (minScroll -500), not the
configured thumb height (which would give -450); and setTextHeight does not
re-clamp the current offset: shrinking the content back to height 0 leaves the
stored offset -500 outside the new bounds [0, 0]. -/
theorem setTextHeight_claim_counterexample :
    ((setTextHeight 1000 sbThin).minScroll = -500 ∧
      (setTextHeight 1000 sbThin).minScroll ≠
        jsMin (-(setTextHeight 1000 sbThin).textHeight +
          (setTextHeight 1000 sbThin).canvasHeight -
          (setTextHeight 1000 sbThin).height) 0) ∧
    ((setTextHeight 0 (setScrollOffset (-500)
        (setTextHeight 2000 sbBase))).minScroll = 0 ∧
      (setTextHeight 0 (setScrollOffset (-500)
        (setTextHeight 2000 sbBase))).scrollOffset = -500 ∧
      ¬ ((setTextHeight 0 (setScrollOffset (-500)
          (setTextHeight 2000 sbBase))).minScroll ≤
        (setTextHeight 0 (setScrollOffset (-500)
          (setTextHeight 2000 sbBase))).scrollOffset)) := by
  decide

/-- Claim C4 (amended): setTextHeight(h) stores h, recomputes
minScroll = min(-h + canvasHeight - 100, 0) with the literal 100 (the default
thumb height, regardless of the configured height field), and leaves every
other field, including the current scroll offset, unchanged; in particular the
offset is not re-clamped into the new bounds. -/
theorem setTextHeight_spec (sb : ScrollBarState) (h : Int) :
    (setTextHeight h sb).textHeight = h ∧
    (setTextHeight h sb).minScroll = jsMin (-h + sb.canvasHeight - 100) 0 ∧
    (setTextHeight h sb).scrollOffset = sb.scrollOffset ∧
    (setTextHeight h sb).x = sb.x ∧
    (setTextHeight h sb).y = sb.y ∧
    (setTextHeight h sb).width = sb.width ∧
    (setTextHeight h sb).height = sb.height ∧
    (setTextHeight h sb).dragging = sb.dragging ∧
    (setTextHeight h sb).canvasWidth = sb.canvasWidth ∧
    (setTextHeight h sb).canvasHeight = sb.canvasHeight ∧
    (setTextHeight h sb).canvasWidth0 = sb.canvasWidth0 ∧
    (setTextHeight h sb).renders = sb.renders :=
  ⟨rfl, rfl, rfl, rfl, rfl, rfl, rfl, rfl, rfl, rfl, rfl, rfl⟩

/-- Counterexample to claim C5: on a fresh scrollbar the bounds are [0, 0],
yet setScrollOffset(-50) stores -50, a value outside those bounds (the
repository test suite pins exactly this unclamped -50 behavior). -/
theorem setScrollOffset_claim_counterexample :
    sbBase.minScroll = 0 ∧
    (setScrollOffset (-50) sbBase).scrollOffset = -50 ∧
    ¬ ((setScrollOffset (-50) sbBase).minScroll ≤
        (setScrollOffset (-50) sbBase).scrollOffset) := by
  decide

/-- Claim C5 (amended): setScrollOffset stores the offset exactly as passed,
without any clamping (clamping happens only inside applyScrollDelta), and then
triggers the render callback once; every other field is unchanged. -/
theorem setScrollOffset_spec (sb : ScrollBarState) (o : Int) :
    (setScrollOffset o sb).scrollOffset = o ∧
    (setScrollOffset o sb).renders = sb.renders + 1 ∧
    (setScrollOffset o sb).minScroll = sb.minScroll ∧
    (setScrollOffset o sb).textHeight = sb.textHeight ∧
    (setScrollOffset o sb).x = sb.x ∧
    (setScrollOffset o sb).y = sb.y ∧
    (setScrollOffset o sb).width = sb.width ∧
    (setScrollOffset o sb).height = sb.height ∧
    (setScrollOffset o sb).dragging = sb.dragging ∧
    (setScrollOffset o sb).canvasWidth = sb.canvasWidth ∧
    (setScrollOffset o sb).canvasHeight = sb.canvasHeight :=
  ⟨rfl, rfl, rfl, rfl, rfl, rfl, rfl, rfl, rfl, rfl, rfl⟩

theorem clampScroll_mem (sb : ScrollBarState) (h : sb.minScroll ≤ 0) (num : Int) :
    sb.minScroll ≤ clampScroll sb num ∧ clampScroll sb num ≤ 0 := by
  unfold clampScroll clamp jsMax jsMin
  split_ifs <;> omega

theorem applyScrollDelta_offset_mem (sb : ScrollBarState)
    (h : sb.minScroll ≤ 0) (d : Int) :
    sb.minScroll ≤ (applyScrollDelta d sb).scrollOffset ∧
      (applyScrollDelta d sb).scrollOffset ≤ 0 :=
  clampScroll_mem sb h (sb.scrollOffset - d)

theorem foldl_applyScrollDelta_minScroll (ds : List Int) :
    ∀ sb : ScrollBarState,
      (ds.foldl (fun s d => applyScrollDelta d s) sb).minScroll = sb.minScroll := by
  induction ds with
  | nil => intro sb; rfl
  | cons d ds ih => intro sb; rw [List.foldl_cons]; exact ih (applyScrollDelta d sb)

theorem foldl_applyScrollDelta_offset (ds : List Int) :
    ∀ sb : ScrollBarState,
      sb.minScroll ≤ 0 → sb.minScroll ≤ sb.scrollOffset → sb.scrollOffset ≤ 0 →
      sb.minScroll ≤ (ds.foldl (fun s d => applyScrollDelta d s) sb).scrollOffset ∧
        (ds.foldl (fun s d => applyScrollDelta d s) sb).scrollOffset ≤ 0 := by
  induction ds with
  | nil => intro sb _ h1 h2; exact ⟨h1, h2⟩
  | cons d ds ih =>
      intro sb h h1 h2
      rw [List.foldl_cons]
      have h3 := applyScrollDelta_offset_mem sb h d
      have h4 : (applyScrollDelta d sb).minScroll = sb.minScroll := rfl
      have h5 := ih (applyScrollDelta d sb) (h4 ▸ h) (h4 ▸ h3.1) h3.2
      rw [h4] at h5
      exact h5

/-- Claim C6 (amended): for any scrollbar state with minScroll at most 0 (as
produced by setup and setTextHeight, whose bound is min(-textHeight +
canvasHeight - 100, 0) with the literal 100 in place of the configured thumb
height), any nonempty sequence of applyScrollDelta calls leaves the offset
inside [minScroll, 0] and minScroll unchanged; concretely, with textHeight
1000, canvasHeight 600 and the default 100 pixel thumb, minScroll is -500, a
delta of -100 from offset 0 leaves the offset at 0 and a delta of 100000
saturates it at -500. -/
theorem applyScrollDelta_clamp_invariant :
    (∀ (sb : ScrollBarState) (ds : List Int), sb.minScroll ≤ 0 → ds ≠ [] →
      ((ds.foldl (fun s d => applyScrollDelta d s) sb).minScroll = sb.minScroll ∧
        sb.minScroll ≤ (ds.foldl (fun s d => applyScrollDelta d s) sb).scrollOffset ∧
        (ds.foldl (fun s d => applyScrollDelta d s) sb).scrollOffset ≤ 0)) ∧
    (∀ w h cw ch so th : Int,
      (setTextHeight th (setupScrollBar w h cw ch so)).minScroll ≤ 0) ∧
    ((setTextHeight 1000 sbBase).minScroll = -500 ∧
      (applyScrollDelta (-100) (setTextHeight 1000 sbBase)).scrollOffset = 0 ∧
      (applyScrollDelta 100000 (setTextHeight 1000 sbBase)).scrollOffset = -500) := by
  refine ⟨?_, ?_, by decide⟩
  · intro sb ds h hne
    refine ⟨foldl_applyScrollDelta_minScroll ds sb, ?_⟩
    cases ds with
    | nil => exact absurd rfl hne
    | cons d ds2 =>
        rw [List.foldl_cons]
        have h3 := applyScrollDelta_offset_mem sb h d
        have h4 : (applyScrollDelta d sb).minScroll = sb.minScroll := rfl
        have h5 := foldl_applyScrollDelta_offset ds2 (applyScrollDelta d sb)
          (h4 ▸ h) (h4 ▸ h3.1) h3.2
        rw [h4] at h5
        exact h5
  · intro w h cw ch so th
    have h6 : (setTextHeight th (setupScrollBar w h cw ch so)).minScroll =
        jsMin (-th + ch - 100) 0 := rfl
    rw [h6]
    unfold jsMin
    split_ifs <;> omega

/-- Witness for claim C6: the delta sequence -100 then 100000 applied to the
1000 pixel document on the default scrollbar keeps the offset within the
bounds. -/
theorem applyScrollDelta_clamp_invariant_witness :
    ([(-100 : Int), 100000].foldl (fun s d => applyScrollDelta d s)
        (setTextHeight 1000 sbBase)).minScroll =
      (setTextHeight 1000 sbBase).minScroll ∧
    (setTextHeight 1000 sbBase).minScroll ≤
      ([(-100 : Int), 100000].foldl (fun s d => applyScrollDelta d s)
        (setTextHeight 1000 sbBase)).scrollOffset ∧
    ([(-100 : Int), 100000].foldl (fun s d => applyScrollDelta d s)
        (setTextHeight 1000 sbBase)).scrollOffset ≤ 0 :=
  applyScrollDelta_clamp_invariant.1 (setTextHeight 1000 sbBase)
    [-100, 100000] (by decide) (by decide)

/-- Counterexample to claim C6 as stated: with a configured thumb height of 50
the code clamps to min(-textHeight + canvasHeight - 100, 0) = -500, strictly
below the bound min(-textHeight + canvasHeight - thumbHeight, 0) = -450 that
the claim asserts, so a huge delta drives the offset outside the claimed
range. -/
theorem applyScrollDelta_thumbHeight_counterexample :
    (applyScrollDelta 100000 (setTextHeight 1000 sbThin)).scrollOffset = -500 ∧
    (applyScrollDelta 100000 (setTextHeight 1000 sbThin)).scrollOffset <
      jsMin (-(setTextHeight 1000 sbThin).textHeight +
        (setTextHeight 1000 sbThin).canvasHeight -
        (setTextHeight 1000 sbThin).height) 0 := by
  decide

theorem jsAddOpt_zero_hundred : jsAddOpt (some (0 : Rat)) 100 = some 100 := by
  unfold jsAddOpt
  norm_num

theorem pointOnScrollbar_degenerate :
    pointOnScrollbar (setTextHeight 200 sbBase) 5 5 = true := by
  have hy : (setTextHeight 200 sbBase).y = some 0 := rfl
  have hx : (setTextHeight 200 sbBase).x = 0 := rfl
  have hw : (setTextHeight 200 sbBase).width = 10 := rfl
  have hh : (setTextHeight 200 sbBase).height = 100 := rfl
  unfold pointOnScrollbar
  rw [hy, hx, hw, hh, jsAddOpt_zero_hundred]
  unfold jsGeOpt jsLeOpt
  norm_num

/-- Claim C7 (evaluation of the code at the failing input): with content
height 200 on a 600 pixel canvas minScroll is 0 and the offset is 0, so draw
computes scrollPerc = 0/0 and the thumb y becomes a non-finite number (NaN,
modeled as none), not the 0 the claim requires; moreover the state machine is
not disabled by a special case: before any draw the thumb rectangle still sits
at the origin and a press at (5, 5) does enable dragging, although dragging
movement can then never change the offset, which stays clamped inside
[0, 0]. -/
theorem draw_degenerate_nan :
    (setTextHeight 200 sbBase).minScroll = 0 ∧
    (setTextHeight 200 sbBase).scrollOffset = 0 ∧
    (draw (setTextHeight 200 sbBase)).y = none ∧
    (draw (setTextHeight 200 sbBase)).y ≠ some 0 ∧
    (handleMouseDown 5 5 (setTextHeight 200 sbBase)).dragging = true ∧
    (handleMouseMove 10 1 (handleMouseDown 5 5
      (setTextHeight 200 sbBase))).scrollOffset = 0 := by
  have h6 : handleMouseDown 5 5 (setTextHeight 200 sbBase) =
      { setTextHeight 200 sbBase with dragging := true } := by
    unfold handleMouseDown
    rw [pointOnScrollbar_degenerate]
    simp
  refine ⟨by decide, by decide, by decide, by decide, ?_, ?_⟩
  · rw [h6]
  · rw [h6]
    decide

/-- Counterexample to claim C8: a non-success response (ok false) is not
treated as a failure by the INIT flow: res.ok is never consulted, the body is
parsed and rendered as document content, and the canvas shows no centered
status message afterwards. -/
theorem coordInit_nonSuccess_counterexample :
    ((coordInit lenMeasure 100 { view := .blank, linesRaw := [] }
        ['b', 'o', 'o', 'k'] (.response false ['N', 'o'])).view.isStatus
      = false) ∧
    (coordInit lenMeasure 100 { view := .blank, linesRaw := [] }
        ['b', 'o', 'o', 'k'] (.response false ['N', 'o'])).view =
      .contentLines (reduceLinesWithNumbers lenMeasure 100 ['N', 'o']) :=
  ⟨rfl, rfl⟩

/-- Claim C8 (amended): on a network error the catch handler only logs, so the
canvas keeps showing the centered Loading-route status message drawn at the
start of INIT in place of content, the existing line table is untouched and no
retry happens; any response, success or not, is parsed and rendered as content
(res.ok is never consulted); and a subsequent INIT for another source after a
failed one proceeds normally. -/
theorem coordInit_failure_spec (m : List (List Char) → Int) (mw : Int)
    (st : CoordState) (route body route2 body2 : List Char) (ok : Bool) :
    (coordInit m mw st route .networkError).view =
      .statusMsg (loadingMsg route) ∧
    (coordInit m mw st route .networkError).linesRaw = st.linesRaw ∧
    coordInit m mw st route (.response ok body) =
      { view := .contentLines (reduceLinesWithNumbers m mw body)
        linesRaw := reduceLinesWithNumbers m mw body } ∧
    (coordInit m mw (coordInit m mw st route .networkError) route2
        (.response true body2)).view =
      .contentLines (reduceLinesWithNumbers m mw body2) :=
  ⟨rfl, rfl, rfl, rfl⟩
